import Mathlib

/-!
Verification development for the hypercomplex quaternion-keyed container codec
(files Arm.h / Arm.c of the repository).

The C core in Arm.h is embedded shallowly:

* Byte buffers are lists of natural numbers; each C byte access reads the
  value modulo 256, mirroring uint8_t semantics.
* 32-bit IEEE-754 float components of quaternion_t are embedded as their
  raw 32-bit bit patterns (natural numbers below 2^32).  The two float
  operations the codec itself performs are exact at the bit-pattern level:
  negation flips the sign bit, and isfinite tests that the exponent field
  is not all-ones.  The remaining float arithmetic (the LCG-to-float map in
  quaternion_generate_key) is kept as an uninterpreted function parameter.
* The block transform hypercomplex_encrypt and the quaternion arithmetic
  routines (quaternion_normalize, quaternion_conjugate, ...) are declared
  extern in Arm.h and implemented in assembly that is not part of the
  repository snapshot; they are modelled from the spec: the transform is an
  explicit function parameter constrained by the invertibility contract of
  spec section 4.4, the conjugate follows the componentwise formula of spec
  section 4.1 (negation of the vector part, exact as a sign-bit flip), and
  normalize appears only as an uninterpreted fallible parameter.
* The container layout follows hypercomplex_header_t on an LP64/AArch64
  platform: magic at byte offset 0, four bytes of struct padding, the
  size_t length at offset 8, the four key floats at offsets 16/20/24/28,
  the checksum at offset 32, four bytes of tail padding, so
  sizeof(hypercomplex_header_t) = 40; the payload starts at offset 40.
  Multi-byte fields are stored in the host little-endian byte order.
* Each C return statement of the two codec entry points is one constructor
  of an exit inductive; a separate map sends exits to the C return codes.
-/

/-- Byte read with default 0: models reading `((const uint8_t*)p)[i]`.
Out-of-range reads (which would be undefined behaviour in C) return 0. -/
def byteD (l : List Nat) (i : Nat) : Nat := l.getD i 0

/-- Little-endian 32-bit load of the four bytes at offset `off`. -/
def read32 (l : List Nat) (off : Nat) : Nat :=
  byteD l off % 256 + 256 * (byteD l (off + 1) % 256) +
    65536 * (byteD l (off + 2) % 256) + 16777216 * (byteD l (off + 3) % 256)

/-- Little-endian 64-bit load of the eight bytes at offset `off`. -/
def read64 (l : List Nat) (off : Nat) : Nat :=
  read32 l off + 4294967296 * read32 l (off + 4)

/-- Little-endian 32-bit store: the four bytes of `v % 2^32`. -/
def le32 (v : Nat) : List Nat :=
  [v % 256, v / 256 % 256, v / 65536 % 256, v / 16777216 % 256]

/-- Little-endian 64-bit store: the eight bytes of `v % 2^64`. -/
def le64 (v : Nat) : List Nat := le32 v ++ le32 (v / 4294967296)

/-- Overwrite the bytes of `buf` starting at `off` with `data`, leaving the
rest of the buffer unchanged (models memcpy into the middle of a buffer). -/
def writeBytes (buf : List Nat) (off : Nat) (data : List Nat) : List Nat :=
  buf.take off ++ data ++ buf.drop (off + data.length)

/-- The bytes of `l` from offset `a` (inclusive) to `b` (exclusive). -/
def byteSlice (l : List Nat) (a b : Nat) : List Nat := (l.drop a).take (b - a)

/-- Complement one byte of a buffer: the corruption used in the tamper
claims replaces the byte at `i` by its bitwise complement. -/
def flipByte (l : List Nat) (i : Nat) : List Nat :=
  l.set i (255 ^^^ (byteD l i % 256))

/-- Sign-bit flip on an IEEE-754 binary32 bit pattern: the exact bit-level
effect of C float negation (also for zeros, infinities and NaNs). -/
def f32_neg (b : Nat) : Nat :=
  if b % 4294967296 < 2147483648 then b % 4294967296 + 2147483648
  else b % 4294967296 - 2147483648

/-- The isfinite test on an IEEE-754 binary32 bit pattern: the 8-bit
exponent field (bits 23..30) is not all-ones. -/
def f32_isfinite (b : Nat) : Bool := b / 8388608 % 256 ≠ 255

/-- Quaternion value as in Arm.h: four float components, embedded as their
32-bit IEEE-754 bit patterns. -/
structure quaternion_t where
  w : Nat
  x : Nat
  y : Nat
  z : Nat
deriving DecidableEq, Repr

/-- All four stored patterns are genuine 32-bit values.  The C struct
enforces this by its type; here it is a side condition. -/
def quatBits (q : quaternion_t) : Prop :=
  q.w < 4294967296 ∧ q.x < 4294967296 ∧ q.y < 4294967296 ∧ q.z < 4294967296

/-- Modelled from the spec: quaternion_conjugate is declared extern in
Arm.h (assembly, not in the snapshot); spec section 4.1 defines it as
(w, -x, -y, -z).  Float negation is exactly a sign-bit flip. -/
def quaternion_conjugate (q : quaternion_t) : quaternion_t :=
  ⟨q.w, f32_neg q.x, f32_neg q.y, f32_neg q.z⟩

/-- Embeds quaternion_is_valid of Arm.h: all four components finite. -/
def quaternion_is_valid (q : quaternion_t) : Bool :=
  f32_isfinite q.w && f32_isfinite q.x && f32_isfinite q.y && f32_isfinite q.z

/-- Return codes of Arm.h. -/
def HC_SUCCESS : Int := 0

/-- Return code for a null pointer argument. -/
def HC_ERROR_NULL_PTR : Int := -1

/-- Return code for normalization of a zero-norm quaternion. -/
def HC_ERROR_DIVIDE_ZERO : Int := -2

/-- Return code shared by all data-shaped failures. -/
def HC_ERROR_INVALID_DATA : Int := -3

/-- One step of the checksum loop body of compute_checksum:
checksum = (checksum << 1) ^ bytes[i] in uint32 arithmetic, the byte read
modulo 256 as uint8_t. -/
def checksum_step (acc b : Nat) : Nat := (acc * 2 % 4294967296) ^^^ (b % 256)

/-- The for loop of compute_checksum, with its running accumulator. -/
def compute_checksum_go (acc : Nat) : List Nat → Nat
  | [] => acc
  | b :: rest => compute_checksum_go (checksum_step acc b) rest

/-- Embeds compute_checksum of Arm.h: accumulator starts at 0. -/
def compute_checksum (data : List Nat) : Nat := compute_checksum_go 0 data

/-- Checksum as the spec words it (section 4.3): a left fold, starting from
accumulator 0, of acc to (acc << 1) XOR byte in 32-bit wraparound
arithmetic.  Stated separately from compute_checksum so that the claim
comparing code and spec is a genuine refinement statement. -/
def checksum_spec (data : List Nat) : Nat :=
  data.foldl (fun acc b => ((acc <<< 1) ^^^ b) % 4294967296) 0

/-- One step of the linear congruential generator of
quaternion_generate_key: state = state * 1103515245 + 12345 in uint64. -/
def lcg_step (s : Nat) : Nat := (s * 1103515245 + 12345) % 18446744073709551616

/-- The raw (pre-normalization) key drawn by quaternion_generate_key: four
successive LCG steps, each contributing its low 16 bits, pushed through the
float expression (float)(state & 0xFFFF) / 65535.0f * 2.0f - 1.0f.  The
float expression is the uninterpreted parameter `f`, taking the 16-bit draw
to the resulting binary32 bit pattern; the integer part is exact. -/
def quaternion_generate_key_raw (f : Nat → Nat) (seed : Nat) : quaternion_t :=
  let s1 := lcg_step (seed % 18446744073709551616)
  let s2 := lcg_step s1
  let s3 := lcg_step s2
  let s4 := lcg_step s3
  ⟨f (s1 % 65536), f (s2 % 65536), f (s3 % 65536), f (s4 % 65536)⟩

/-- Embeds quaternion_generate_key of Arm.h.  The function writes the four
raw components through the out pointer and then calls
quaternion_normalize(key, key); `nrm` is the uninterpreted model of that
missing assembly routine.  The C wrapper returns void and DISCARDS the
status of quaternion_normalize; if normalize fails it produces no value
(spec section 4.1), so the in-place call leaves the buffer holding the raw
draw.  The match below is that discard, made explicit. -/
def quaternion_generate_key (f : Nat → Nat)
    (nrm : quaternion_t → Except Int quaternion_t) (seed : Nat) : quaternion_t :=
  let raw := quaternion_generate_key_raw f seed
  match nrm raw with
  | Except.ok q => q
  | Except.error _ => raw

/-- Return sites of quaternion_generate_key: the early return on a null key
pointer, and the fall-through end of the function body. -/
inductive GenKeyExit where
  | nullKey
  | done
deriving DecidableEq, Repr

/-- Value delivered to the caller at each exit of quaternion_generate_key.
The C function is declared `void quaternion_generate_key(...)`, so neither
exit carries a status: there is no return value at all. -/
def genKeyExitCode : GenKeyExit → Option Int := fun _ => none

/-- Byte size of hypercomplex_header_t on LP64/AArch64: 4 (magic) +
4 (padding) + 8 (length) + 16 (key) + 4 (checksum) + 4 (tail padding). -/
def header_size : Nat := 40

/-- Padded payload size of hypercomplex_encrypt_data:
((length + 15) / 16) * 16, the source's 16-byte alignment expression. -/
def paddedLen (len : Nat) : Nat := (len + 15) / 16 * 16

/-- Return sites of hypercomplex_encrypt_data. -/
inductive EncExit where
  | nullPtr
  | invalidKey
  | bufferTooSmall
  | ok
deriving DecidableEq, Repr

/-- C return code delivered at each exit of hypercomplex_encrypt_data. -/
def encExitCode : EncExit → Int
  | EncExit.nullPtr => HC_ERROR_NULL_PTR
  | EncExit.invalidKey => HC_ERROR_INVALID_DATA
  | EncExit.bufferTooSmall => HC_ERROR_INVALID_DATA
  | EncExit.ok => HC_SUCCESS

/-- Result of hypercomplex_encrypt_data: which return fired, the ciphertext
buffer contents after the call, and the value left in *cipher_length. -/
structure EncResult where
  exit : EncExit
  buf : List Nat
  cipherLen : Nat
deriving DecidableEq, Repr

/-- Embeds hypercomplex_encrypt_data of Arm.h for non-null arguments.
`buf` is the ciphertext buffer's prior contents, `cap` the value passed in
*cipher_length.  The C function checks quaternion_is_valid, then the
capacity (setting *cipher_length to the required total and returning before
any write when too small), then stores the header fields at their LP64
offsets (the struct-padding bytes 4..7 and 36..39 keep the buffer's prior
contents), copies the plaintext to offset 40, zero-pads to the 16-byte
boundary, and transforms that region in place with the key; the success
buffer is written out here as the concatenation of those regions.  `T`
models the extern assembly block transform hypercomplex_encrypt. -/
def hypercomplex_encrypt_data (T : quaternion_t → List Nat → List Nat)
    (plaintext : List Nat) (key : quaternion_t) (buf : List Nat) (cap : Nat) :
    EncResult :=
  if quaternion_is_valid key = false then ⟨EncExit.invalidKey, buf, cap⟩
  else
    let total := header_size + paddedLen plaintext.length
    if cap < total then ⟨EncExit.bufferTooSmall, buf, total⟩
    else
      let padded := plaintext ++ List.replicate (paddedLen plaintext.length - plaintext.length) 0
      ⟨EncExit.ok,
        le32 3735928559 ++ byteSlice buf 4 8 ++ le64 plaintext.length ++
          le32 key.w ++ le32 key.x ++ le32 key.y ++ le32 key.z ++
          le32 (compute_checksum plaintext) ++ byteSlice buf 36 40 ++
          T key padded ++ buf.drop total,
        total⟩

/-- Return sites of hypercomplex_decrypt_data. -/
inductive DecExit where
  | nullPtr
  | tooShort
  | badMagic
  | plainTooSmall
  | checksumMismatch
  | ok
deriving DecidableEq, Repr

/-- C return code delivered at each exit of hypercomplex_decrypt_data. -/
def decExitCode : DecExit → Int
  | DecExit.nullPtr => HC_ERROR_NULL_PTR
  | DecExit.tooShort => HC_ERROR_INVALID_DATA
  | DecExit.badMagic => HC_ERROR_INVALID_DATA
  | DecExit.plainTooSmall => HC_ERROR_INVALID_DATA
  | DecExit.checksumMismatch => HC_ERROR_INVALID_DATA
  | DecExit.ok => HC_SUCCESS

/-- Result of hypercomplex_decrypt_data: which return fired, the plaintext
buffer contents after the call, and the value left in *plain_length. -/
structure DecResult where
  exit : DecExit
  buf : List Nat
  plainLen : Nat
deriving DecidableEq, Repr

/-- The header fields hypercomplex_decrypt_data reads from the ciphertext
buffer, at their LP64 byte offsets. -/
structure HeaderView where
  magic : Nat
  length : Nat
  key : quaternion_t
  checksum : Nat
deriving DecidableEq, Repr

/-- Parse the header fields out of a ciphertext buffer. -/
def parseHeader (c : List Nat) : HeaderView :=
  ⟨read32 c 0, read64 c 8,
    ⟨read32 c 16, read32 c 20, read32 c 24, read32 c 28⟩, read32 c 32⟩

/-- Embeds hypercomplex_decrypt_data of Arm.h for non-null arguments.
`cipher` is the ciphertext buffer (its list length is the cipher_length
argument), `pbuf` the plaintext buffer's prior contents, `plainCap` the
value passed in *plain_length.  The `key` parameter is kept because the C
signature takes it, but after the null guard the C body never reads it:
decryption keys on the conjugate of the header's stored key.  The checks
happen in source order: buffer shorter than the header, magic mismatch,
*plain_length smaller than the header length (this path updates
*plain_length to the header length before returning), then the post-header
bytes are copied into the plaintext buffer, transformed in place with the
conjugate key, *plain_length is set to the header length, and the checksum
is recomputed over the first header-length bytes of the plaintext buffer
and compared to the stored checksum. -/
def hypercomplex_decrypt_data (T : quaternion_t → List Nat → List Nat)
    (cipher : List Nat) (key : quaternion_t) (pbuf : List Nat) (plainCap : Nat) :
    DecResult :=
  if cipher.length < header_size then ⟨DecExit.tooShort, pbuf, plainCap⟩
  else
    let hdr := parseHeader cipher
    if hdr.magic ≠ 3735928559 then ⟨DecExit.badMagic, pbuf, plainCap⟩
    else if plainCap < hdr.length then ⟨DecExit.plainTooSmall, pbuf, hdr.length⟩
    else
      let recovered := T (quaternion_conjugate hdr.key) (cipher.drop header_size)
      let outBuf := writeBytes pbuf 0 recovered
      if compute_checksum (outBuf.take hdr.length) ≠ hdr.checksum then
        ⟨DecExit.checksumMismatch, outBuf, hdr.length⟩
      else ⟨DecExit.ok, outBuf, hdr.length⟩

/-! Byte-level lemma kit. -/

theorem byteD_append_left (l1 l2 : List Nat) (i : Nat) (h : i < l1.length) :
    byteD (l1 ++ l2) i = byteD l1 i := by
  simp [byteD, List.getD, List.getElem?_append, h]

theorem byteD_drop (l : List Nat) (n i : Nat) : byteD (l.drop n) i = byteD l (n + i) := by
  simp [byteD, List.getD, List.getElem?_drop]

theorem byteD_set_ne (l : List Nat) (i j a : Nat) (h : i ≠ j) :
    byteD (l.set i a) j = byteD l j := by
  simp [byteD, List.getD, List.getElem?_set_ne h]

theorem byteD_set_eq (l : List Nat) (i a : Nat) (h : i < l.length) :
    byteD (l.set i a) i = a := by
  simp [byteD, List.getD, List.getElem?_set_eq_of_lt a h]

theorem read32_drop (l : List Nat) (n t : Nat) : read32 (l.drop n) t = read32 l (n + t) := by
  simp [read32, byteD_drop, Nat.add_assoc]

theorem read64_drop (l : List Nat) (n t : Nat) : read64 (l.drop n) t = read64 l (n + t) := by
  simp [read64, read32_drop, Nat.add_assoc]

theorem read32_le32_head (v : Nat) (rest : List Nat) :
    read32 (le32 v ++ rest) 0 = v % 4294967296 := by
  simp [read32, le32, byteD, List.getD]
  omega

theorem length_le32 (v : Nat) : (le32 v).length = 4 := rfl

theorem length_le64 (v : Nat) : (le64 v).length = 8 := rfl

theorem drop_append_len (l1 l2 : List Nat) (n : Nat) (h : l1.length = n) :
    (l1 ++ l2).drop n = l2 := List.drop_left' h

theorem take_append_len (l1 l2 : List Nat) (n : Nat) (h : l1.length = n) :
    (l1 ++ l2).take n = l1 := List.take_left' h

theorem read64_le64_head (v : Nat) (rest : List Nat) :
    read64 (le64 v ++ rest) 0 = v % 18446744073709551616 := by
  have h4 : (le64 v ++ rest).drop 4 = le32 (v / 4294967296) ++ rest := by
    simp [le64, le32]
  have h0 : read32 (le64 v ++ rest) 0 = v % 4294967296 := by
    simpa [le64] using read32_le32_head v (le32 (v / 4294967296) ++ rest)
  have h1 : read32 (le64 v ++ rest) 4 = v / 4294967296 % 4294967296 := by
    have := read32_drop (le64 v ++ rest) 4 0
    rw [h4] at this
    simpa [read32_le32_head] using this.symm
  simp only [read64, h0, h1]
  omega

theorem length_byteSlice (l : List Nat) (a b : Nat) (hb : b ≤ l.length) (hab : a ≤ b) :
    (byteSlice l a b).length = b - a := by
  simp [byteSlice, List.length_take, List.length_drop]
  omega

theorem writeBytes_zero (pbuf data : List Nat) :
    writeBytes pbuf 0 data = data ++ pbuf.drop data.length := by
  simp [writeBytes]

/-! Arithmetic facts about the padding and the checksum. -/

theorem paddedLen_ge (len : Nat) : len ≤ paddedLen len := by
  unfold paddedLen
  omega

theorem paddedLen_dvd (len : Nat) : 16 ∣ paddedLen len :=
  ⟨(len + 15) / 16, by unfold paddedLen; ring⟩

theorem paddedLen_min (len m : Nat) (hdvd : 16 ∣ m) (hle : len ≤ m) :
    paddedLen len ≤ m := by
  obtain ⟨k, rfl⟩ := hdvd
  unfold paddedLen
  omega

theorem paddedLen_eq_of_dvd (len : Nat) (h : 16 ∣ len) : paddedLen len = len :=
  Nat.le_antisymm (paddedLen_min len len h le_rfl) (paddedLen_ge len)

theorem checksum_step_lt (acc b : Nat) : checksum_step acc b < 4294967296 := by
  have h1 : acc * 2 % 4294967296 < 2 ^ 32 := by
    have := Nat.mod_lt (acc * 2) (y := 4294967296) (by norm_num)
    omega
  have h2 : b % 256 < 2 ^ 32 := by
    have := Nat.mod_lt b (y := 256) (by norm_num)
    omega
  have := Nat.xor_lt_two_pow h1 h2
  unfold checksum_step
  omega

theorem compute_checksum_go_lt (l : List Nat) (acc : Nat) (h : acc < 4294967296) :
    compute_checksum_go acc l < 4294967296 := by
  induction l generalizing acc with
  | nil => simpa [compute_checksum_go] using h
  | cons b rest ih => exact ih _ (checksum_step_lt acc b)

theorem compute_checksum_lt (l : List Nat) : compute_checksum l < 4294967296 :=
  compute_checksum_go_lt l 0 (by norm_num)

theorem checksum_step_eq_spec_step (acc b : Nat) (hb : b < 256) :
    checksum_step acc b = ((acc <<< 1) ^^^ b) % 4294967296 := by
  have hmask : ∀ x : Nat, x % 4294967296 = x &&& 4294967295 := by
    intro x
    have := Nat.and_pow_two_sub_one_eq_mod x 32
    norm_num at this
    omega
  have hb32 : b &&& 4294967295 = b := by
    have := Nat.and_pow_two_sub_one_eq_mod b 32
    norm_num at this
    omega
  unfold checksum_step
  rw [Nat.shiftLeft_eq, pow_one, Nat.mod_eq_of_lt hb, hmask (acc * 2),
    hmask ((acc * 2) ^^^ b), Nat.and_xor_distrib_right, hb32]

theorem compute_checksum_go_eq_foldl (l : List Nat) (hb : ∀ b ∈ l, b < 256) (acc : Nat) :
    compute_checksum_go acc l =
      l.foldl (fun acc b => ((acc <<< 1) ^^^ b) % 4294967296) acc := by
  induction l generalizing acc with
  | nil => rfl
  | cons b rest ih =>
    have hb0 : b < 256 := hb b (List.mem_cons_self b rest)
    have hbr : ∀ x ∈ rest, x < 256 := fun x hx => hb x (List.mem_cons_of_mem b hx)
    simp only [compute_checksum_go, List.foldl_cons, ih hbr,
      checksum_step_eq_spec_step acc b hb0]

theorem flip_byte_ne (d : Nat) : 255 ^^^ d ≠ d := by
  intro h
  have h2 : (255 ^^^ d) ^^^ d = d ^^^ d := by rw [h]
  rw [Nat.xor_assoc, Nat.xor_self, Nat.xor_zero] at h2
  simp at h2

theorem drop_set_of_lt (l : List Nat) (i n a : Nat) (h : i < n) :
    (l.set i a).drop n = l.drop n := by
  apply List.ext_getElem?
  intro j
  rw [List.getElem?_drop, List.getElem?_drop, List.getElem?_set_ne (by omega)]

/-! Effect of single-byte modifications on the loads. -/

theorem read32_set_outside (c : List Nat) (p v off : Nat)
    (h : p < off ∨ off + 4 ≤ p) : read32 (c.set p v) off = read32 c off := by
  unfold read32
  rw [byteD_set_ne c p off v (by omega), byteD_set_ne c p (off + 1) v (by omega),
    byteD_set_ne c p (off + 2) v (by omega), byteD_set_ne c p (off + 3) v (by omega)]

theorem read64_set_outside (c : List Nat) (p v off : Nat)
    (h : p < off ∨ off + 8 ≤ p) : read64 (c.set p v) off = read64 c off := by
  unfold read64
  rw [read32_set_outside c p v off (by omega), read32_set_outside c p v (off + 4) (by omega)]

theorem read32_set_inside_ne (c : List Nat) (off t v : Nat) (ht : t < 4)
    (hlt : off + t < c.length) (hv : v < 256) (hne : v ≠ byteD c (off + t) % 256) :
    read32 (c.set (off + t) v) off ≠ read32 c off := by
  have hset_eq : byteD (c.set (off + t) v) (off + t) = v := byteD_set_eq _ _ _ hlt
  have hset_ne : ∀ j, off + t ≠ j → byteD (c.set (off + t) v) j = byteD c j :=
    fun j h => byteD_set_ne _ _ _ _ h
  unfold read32
  interval_cases t
  · simp only [Nat.add_zero] at hset_eq hset_ne hne ⊢
    rw [hset_eq, hset_ne (off + 1) (by omega), hset_ne (off + 2) (by omega),
      hset_ne (off + 3) (by omega)]
    omega
  · rw [hset_eq, hset_ne off (by omega), hset_ne (off + 2) (by omega),
      hset_ne (off + 3) (by omega)]
    omega
  · rw [hset_eq, hset_ne off (by omega), hset_ne (off + 1) (by omega),
      hset_ne (off + 3) (by omega)]
    omega
  · rw [hset_eq, hset_ne off (by omega), hset_ne (off + 1) (by omega),
      hset_ne (off + 2) (by omega)]
    omega

theorem parseHeader_set_outside (c : List Nat) (p v : Nat)
    (hp : (4 ≤ p ∧ p < 8) ∨ (36 ≤ p ∧ p < 40)) :
    parseHeader (c.set p v) = parseHeader c := by
  unfold parseHeader
  rw [read32_set_outside c p v 0 (by omega), read64_set_outside c p v 8 (by omega),
    read32_set_outside c p v 16 (by omega), read32_set_outside c p v 20 (by omega),
    read32_set_outside c p v 24 (by omega), read32_set_outside c p v 28 (by omega),
    read32_set_outside c p v 32 (by omega)]

theorem decrypt_congr (T : quaternion_t → List Nat → List Nat) (c1 c2 : List Nat)
    (key : quaternion_t) (pbuf : List Nat) (plainCap : Nat)
    (hlen : c1.length = c2.length) (hhdr : parseHeader c1 = parseHeader c2)
    (hdata : c1.drop 40 = c2.drop 40) :
    hypercomplex_decrypt_data T c1 key pbuf plainCap =
      hypercomplex_decrypt_data T c2 key pbuf plainCap := by
  unfold hypercomplex_decrypt_data header_size
  rw [hlen, hhdr, hdata]

/-! Shape of a successfully encoded container. -/

theorem encrypt_ok_shape (T : quaternion_t → List Nat → List Nat) (pt : List Nat)
    (k : quaternion_t) (buf : List Nat) (cap : Nat)
    (hvalid : quaternion_is_valid k = true)
    (hcap : header_size + paddedLen pt.length ≤ cap) :
    hypercomplex_encrypt_data T pt k buf cap =
      ⟨EncExit.ok,
        le32 3735928559 ++ byteSlice buf 4 8 ++ le64 pt.length ++
          le32 k.w ++ le32 k.x ++ le32 k.y ++ le32 k.z ++
          le32 (compute_checksum pt) ++ byteSlice buf 36 40 ++
          T k (pt ++ List.replicate (paddedLen pt.length - pt.length) 0) ++
          buf.drop (header_size + paddedLen pt.length),
        header_size + paddedLen pt.length⟩ := by
  unfold hypercomplex_encrypt_data
  rw [hvalid]
  simp [Nat.not_lt.mpr hcap]

theorem container_facts (S2 S6 P tail : List Nat) (L kw kx ky kz ck : Nat)
    (hS2 : S2.length = 4) (hS6 : S6.length = 4) :
    read32 (le32 3735928559 ++ S2 ++ le64 L ++ le32 kw ++ le32 kx ++ le32 ky ++
        le32 kz ++ le32 ck ++ S6 ++ P ++ tail) 0 = 3735928559 ∧
    read64 (le32 3735928559 ++ S2 ++ le64 L ++ le32 kw ++ le32 kx ++ le32 ky ++
        le32 kz ++ le32 ck ++ S6 ++ P ++ tail) 8 = L % 18446744073709551616 ∧
    read32 (le32 3735928559 ++ S2 ++ le64 L ++ le32 kw ++ le32 kx ++ le32 ky ++
        le32 kz ++ le32 ck ++ S6 ++ P ++ tail) 16 = kw % 4294967296 ∧
    read32 (le32 3735928559 ++ S2 ++ le64 L ++ le32 kw ++ le32 kx ++ le32 ky ++
        le32 kz ++ le32 ck ++ S6 ++ P ++ tail) 20 = kx % 4294967296 ∧
    read32 (le32 3735928559 ++ S2 ++ le64 L ++ le32 kw ++ le32 kx ++ le32 ky ++
        le32 kz ++ le32 ck ++ S6 ++ P ++ tail) 24 = ky % 4294967296 ∧
    read32 (le32 3735928559 ++ S2 ++ le64 L ++ le32 kw ++ le32 kx ++ le32 ky ++
        le32 kz ++ le32 ck ++ S6 ++ P ++ tail) 28 = kz % 4294967296 ∧
    read32 (le32 3735928559 ++ S2 ++ le64 L ++ le32 kw ++ le32 kx ++ le32 ky ++
        le32 kz ++ le32 ck ++ S6 ++ P ++ tail) 32 = ck % 4294967296 ∧
    (le32 3735928559 ++ S2 ++ le64 L ++ le32 kw ++ le32 kx ++ le32 ky ++
        le32 kz ++ le32 ck ++ S6 ++ P ++ tail).drop 40 = P ++ tail ∧
    (le32 3735928559 ++ S2 ++ le64 L ++ le32 kw ++ le32 kx ++ le32 ky ++
        le32 kz ++ le32 ck ++ S6 ++ P ++ tail).length = 40 + (P.length + tail.length) := by
  set c := le32 3735928559 ++ S2 ++ le64 L ++ le32 kw ++ le32 kx ++ le32 ky ++
    le32 kz ++ le32 ck ++ S6 ++ P ++ tail with hc
  have hcr : c = le32 3735928559 ++ (S2 ++ (le64 L ++ (le32 kw ++ (le32 kx ++
      (le32 ky ++ (le32 kz ++ (le32 ck ++ (S6 ++ (P ++ tail))))))))) := by
    rw [hc]
    simp [List.append_assoc]
  have d4 : c.drop 4 = S2 ++ (le64 L ++ (le32 kw ++ (le32 kx ++ (le32 ky ++
      (le32 kz ++ (le32 ck ++ (S6 ++ (P ++ tail)))))))) := by
    rw [hcr]
    exact drop_append_len _ _ 4 (length_le32 _)
  have d8 : c.drop 8 = le64 L ++ (le32 kw ++ (le32 kx ++ (le32 ky ++
      (le32 kz ++ (le32 ck ++ (S6 ++ (P ++ tail))))))) := by
    have h : c.drop 8 = (c.drop 4).drop 4 := by rw [List.drop_drop]
    rw [h, d4]
    exact drop_append_len _ _ 4 hS2
  have d16 : c.drop 16 = le32 kw ++ (le32 kx ++ (le32 ky ++
      (le32 kz ++ (le32 ck ++ (S6 ++ (P ++ tail)))))) := by
    have h : c.drop 16 = (c.drop 8).drop 8 := by rw [List.drop_drop]
    rw [h, d8]
    exact drop_append_len _ _ 8 (length_le64 _)
  have d20 : c.drop 20 = le32 kx ++ (le32 ky ++
      (le32 kz ++ (le32 ck ++ (S6 ++ (P ++ tail))))) := by
    have h : c.drop 20 = (c.drop 16).drop 4 := by rw [List.drop_drop]
    rw [h, d16]
    exact drop_append_len _ _ 4 (length_le32 _)
  have d24 : c.drop 24 = le32 ky ++ (le32 kz ++ (le32 ck ++ (S6 ++ (P ++ tail)))) := by
    have h : c.drop 24 = (c.drop 20).drop 4 := by rw [List.drop_drop]
    rw [h, d20]
    exact drop_append_len _ _ 4 (length_le32 _)
  have d28 : c.drop 28 = le32 kz ++ (le32 ck ++ (S6 ++ (P ++ tail))) := by
    have h : c.drop 28 = (c.drop 24).drop 4 := by rw [List.drop_drop]
    rw [h, d24]
    exact drop_append_len _ _ 4 (length_le32 _)
  have d32 : c.drop 32 = le32 ck ++ (S6 ++ (P ++ tail)) := by
    have h : c.drop 32 = (c.drop 28).drop 4 := by rw [List.drop_drop]
    rw [h, d28]
    exact drop_append_len _ _ 4 (length_le32 _)
  have d36 : c.drop 36 = S6 ++ (P ++ tail) := by
    have h : c.drop 36 = (c.drop 32).drop 4 := by rw [List.drop_drop]
    rw [h, d32]
    exact drop_append_len _ _ 4 (length_le32 _)
  have d40 : c.drop 40 = P ++ tail := by
    have h : c.drop 40 = (c.drop 36).drop 4 := by rw [List.drop_drop]
    rw [h, d36]
    exact drop_append_len _ _ 4 hS6
  have rshift : ∀ n : Nat, read32 c n = read32 (c.drop n) 0 := by
    intro n
    have := read32_drop c n 0
    simpa using this.symm
  have rshift64 : ∀ n : Nat, read64 c n = read64 (c.drop n) 0 := by
    intro n
    have := read64_drop c n 0
    simpa using this.symm
  refine ⟨?_, ?_, ?_, ?_, ?_, ?_, ?_, d40, ?_⟩
  · rw [hcr, read32_le32_head]
  · rw [rshift64 8, d8, read64_le64_head]
  · rw [rshift 16, d16, read32_le32_head]
  · rw [rshift 20, d20, read32_le32_head]
  · rw [rshift 24, d24, read32_le32_head]
  · rw [rshift 28, d28, read32_le32_head]
  · rw [rshift 32, d32, read32_le32_head]
  · rw [hcr]
    simp [length_le32, length_le64, hS2, hS6, List.length_append, le64, le32]
    omega

theorem padded_list_length (pt : List Nat) :
    (pt ++ List.replicate (paddedLen pt.length - pt.length) 0).length = paddedLen pt.length := by
  have := paddedLen_ge pt.length
  simp [List.length_append, List.length_replicate]
  omega

theorem decrypt_encrypt_ok (T : quaternion_t → List Nat → List Nat)
    (U : quaternion_t → Prop) (pt buf pbuf : List Nat) (k k2 : quaternion_t)
    (plainCap : Nat)
    (hlen : ∀ q b, (T q b).length = b.length)
    (hinv : ∀ q b, U q → 16 ∣ b.length → T (quaternion_conjugate q) (T q b) = b)
    (hU : U k)
    (hvalid : quaternion_is_valid k = true)
    (hbits : quatBits k)
    (hbuf : buf.length = header_size + paddedLen pt.length)
    (hL : pt.length < 18446744073709551616)
    (hcap : pt.length ≤ plainCap) :
    hypercomplex_decrypt_data T
        (hypercomplex_encrypt_data T pt k buf (header_size + paddedLen pt.length)).buf
        k2 pbuf plainCap =
      ⟨DecExit.ok,
        (pt ++ List.replicate (paddedLen pt.length - pt.length) 0) ++
          pbuf.drop (paddedLen pt.length),
        pt.length⟩ := by
  have htail : buf.drop (header_size + paddedLen pt.length) = [] :=
    List.drop_eq_nil_of_le (le_of_eq hbuf)
  have hS2 : (byteSlice buf 4 8).length = 4 := by
    apply length_byteSlice
    · rw [hbuf]; unfold header_size; omega
    · omega
  have hS6 : (byteSlice buf 36 40).length = 4 := by
    apply length_byteSlice
    · rw [hbuf]; unfold header_size; omega
    · omega
  rw [encrypt_ok_shape T pt k buf _ hvalid le_rfl]
  simp only [htail]
  obtain ⟨f0, f8, f16, f20, f24, f28, f32, fdrop, flen⟩ :=
    container_facts (byteSlice buf 4 8) (byteSlice buf 36 40)
      (T k (pt ++ List.replicate (paddedLen pt.length - pt.length) 0)) []
      pt.length k.w k.x k.y k.z (compute_checksum pt) hS2 hS6
  obtain ⟨hw, hx, hy, hz⟩ := hbits
  have hkey : (⟨k.w % 4294967296, k.x % 4294967296, k.y % 4294967296,
      k.z % 4294967296⟩ : quaternion_t) = k := by
    cases k
    simp only [quaternion_t.mk.injEq]
    exact ⟨Nat.mod_eq_of_lt hw, Nat.mod_eq_of_lt hx, Nat.mod_eq_of_lt hy, Nat.mod_eq_of_lt hz⟩
  have hrec : T (quaternion_conjugate k)
      (T k (pt ++ List.replicate (paddedLen pt.length - pt.length) 0)) =
      pt ++ List.replicate (paddedLen pt.length - pt.length) 0 := by
    apply hinv k _ hU
    rw [padded_list_length]
    exact paddedLen_dvd pt.length
  have hplen : (T k (pt ++ List.replicate (paddedLen pt.length - pt.length) 0)).length
      = paddedLen pt.length := by rw [hlen, padded_list_length]
  simp only [List.append_nil, List.length_nil] at f0 f8 f16 f20 f24 f28 f32 fdrop flen
  unfold hypercomplex_decrypt_data parseHeader header_size
  simp only [List.append_nil]
  simp only [f0, f8, f16, f20, f24, f28, f32, fdrop, flen, hkey]
  rw [Nat.mod_eq_of_lt hL, Nat.mod_eq_of_lt (compute_checksum_lt pt)]
  have hnotshort : ¬ (40 + ((T k (pt ++ List.replicate (paddedLen pt.length - pt.length) 0)).length + 0) < 40) := by
    omega
  rw [if_neg hnotshort, if_neg (by norm_num), if_neg (Nat.not_lt.mpr hcap)]
  rw [hrec, writeBytes_zero, padded_list_length]
  have htake : ((pt ++ List.replicate (paddedLen pt.length - pt.length) 0) ++
      pbuf.drop (paddedLen pt.length)).take pt.length = pt := by
    rw [List.append_assoc]
    exact take_append_len pt _ pt.length rfl
  rw [htake, if_neg (by simp)]

/-! Claim theorems. -/

/-- C1: for every plaintext byte buffer and every 64-bit seed, decoding
(with sufficient output capacity) the container produced by
Encode(plaintext, GenerateKey(seed)) succeeds and returns exactly the
original plaintext bytes and their exact length, under the hypothesis that
the block transform satisfies its contract
Transform(Transform(block, key), Conjugate(key)) = block (and preserves
block length) for valid unit keys, the generated key being such a key.
The unit-key predicate U is abstract because the assembly normalize and the
float arithmetic of key generation are not in the repository snapshot. -/
theorem C1_encode_decode_roundtrip (T : quaternion_t → List Nat → List Nat)
    (U : quaternion_t → Prop) (f : Nat → Nat)
    (nrm : quaternion_t → Except Int quaternion_t) (seed : Nat)
    (pt buf pbuf : List Nat) (plainCap : Nat)
    (hlen : ∀ q b, (T q b).length = b.length)
    (hinv : ∀ q b, U q → 16 ∣ b.length → T (quaternion_conjugate q) (T q b) = b)
    (hU : U (quaternion_generate_key f nrm seed))
    (hvalid : quaternion_is_valid (quaternion_generate_key f nrm seed) = true)
    (hbits : quatBits (quaternion_generate_key f nrm seed))
    (hbuf : buf.length = header_size + paddedLen pt.length)
    (hL : pt.length < 18446744073709551616)
    (hcap : pt.length ≤ plainCap) :
    (hypercomplex_encrypt_data T pt (quaternion_generate_key f nrm seed) buf
        (header_size + paddedLen pt.length)).exit = EncExit.ok ∧
    (hypercomplex_decrypt_data T
        (hypercomplex_encrypt_data T pt (quaternion_generate_key f nrm seed) buf
          (header_size + paddedLen pt.length)).buf
        (quaternion_generate_key f nrm seed) pbuf plainCap).exit = DecExit.ok ∧
    (hypercomplex_decrypt_data T
        (hypercomplex_encrypt_data T pt (quaternion_generate_key f nrm seed) buf
          (header_size + paddedLen pt.length)).buf
        (quaternion_generate_key f nrm seed) pbuf plainCap).plainLen = pt.length ∧
    (hypercomplex_decrypt_data T
        (hypercomplex_encrypt_data T pt (quaternion_generate_key f nrm seed) buf
          (header_size + paddedLen pt.length)).buf
        (quaternion_generate_key f nrm seed) pbuf plainCap).buf.take pt.length = pt := by
  have hdec := decrypt_encrypt_ok T U pt buf pbuf (quaternion_generate_key f nrm seed)
    (quaternion_generate_key f nrm seed) plainCap hlen hinv hU hvalid hbits hbuf hL hcap
  have henc := encrypt_ok_shape T pt (quaternion_generate_key f nrm seed) buf
    (header_size + paddedLen pt.length) hvalid le_rfl
  refine ⟨by rw [henc], by rw [hdec], by rw [hdec], ?_⟩
  rw [hdec]
  show ((pt ++ List.replicate (paddedLen pt.length - pt.length) 0) ++
      pbuf.drop (paddedLen pt.length)).take pt.length = pt
  rw [List.append_assoc]
  exact take_append_len pt _ pt.length rfl

/-- C1 witness: the round-trip at a concrete plaintext, seed, buffer sizes,
identity transform and constant float map. -/
theorem C1_encode_decode_roundtrip_witness :
    (hypercomplex_encrypt_data (fun _ b => b) [104, 105]
        (quaternion_generate_key (fun _ => 1065353216) (fun q => Except.ok q) 0)
        (List.replicate 56 0) (header_size + paddedLen 2)).exit = EncExit.ok ∧
    (hypercomplex_decrypt_data (fun _ b => b)
        (hypercomplex_encrypt_data (fun _ b => b) [104, 105]
          (quaternion_generate_key (fun _ => 1065353216) (fun q => Except.ok q) 0)
          (List.replicate 56 0) (header_size + paddedLen 2)).buf
        (quaternion_generate_key (fun _ => 1065353216) (fun q => Except.ok q) 0)
        (List.replicate 16 0) 2).exit = DecExit.ok ∧
    (hypercomplex_decrypt_data (fun _ b => b)
        (hypercomplex_encrypt_data (fun _ b => b) [104, 105]
          (quaternion_generate_key (fun _ => 1065353216) (fun q => Except.ok q) 0)
          (List.replicate 56 0) (header_size + paddedLen 2)).buf
        (quaternion_generate_key (fun _ => 1065353216) (fun q => Except.ok q) 0)
        (List.replicate 16 0) 2).plainLen = 2 ∧
    (hypercomplex_decrypt_data (fun _ b => b)
        (hypercomplex_encrypt_data (fun _ b => b) [104, 105]
          (quaternion_generate_key (fun _ => 1065353216) (fun q => Except.ok q) 0)
          (List.replicate 56 0) (header_size + paddedLen 2)).buf
        (quaternion_generate_key (fun _ => 1065353216) (fun q => Except.ok q) 0)
        (List.replicate 16 0) 2).buf.take 2 = [104, 105] :=
  C1_encode_decode_roundtrip (fun _ b => b)
    (fun q => q = ⟨1065353216, 1065353216, 1065353216, 1065353216⟩)
    (fun _ => 1065353216) (fun q => Except.ok q) 0 [104, 105]
    (List.replicate 56 0) (List.replicate 16 0) 2
    (fun _ _ => rfl) (fun _ _ _ _ => rfl) (by decide) (by decide)
    (by unfold quatBits; decide) (by decide) (by decide) (by decide)

/-- C2 counterexample: the claim asserts that key generation is observable
as a fallible operation at the caller's interface, propagating DivideByZero
from Normalize.  The C function quaternion_generate_key is declared void:
neither of its two return sites delivers any status to the caller, so in
particular neither delivers HC_ERROR_DIVIDE_ZERO. -/
theorem C2_no_error_at_interface :
    genKeyExitCode GenKeyExit.done ≠ some HC_ERROR_DIVIDE_ZERO ∧
    genKeyExitCode GenKeyExit.nullKey ≠ some HC_ERROR_DIVIDE_ZERO := by
  constructor <;> simp [genKeyExitCode]

/-- C2 (amended): if the normalize step fails, quaternion_generate_key
still leaves the raw LCG-derived quaternion in the caller's key buffer and
returns void; no exit of the function carries any status, so key
generation is not observable as fallible at the caller's interface. -/
theorem C2_generate_key_discards_normalize_failure (f : Nat → Nat)
    (nrm : quaternion_t → Except Int quaternion_t) (seed : Nat) (e : Int)
    (herr : nrm (quaternion_generate_key_raw f seed) = Except.error e) :
    quaternion_generate_key f nrm seed = quaternion_generate_key_raw f seed ∧
    (∀ x : GenKeyExit, genKeyExitCode x = none) := by
  constructor
  · simp only [quaternion_generate_key]
    rw [herr]
  · intro x
    rfl

/-- C2 witness: the amended statement at a concrete failing normalize. -/
theorem C2_generate_key_discards_normalize_failure_witness :
    quaternion_generate_key id (fun _ => Except.error (-2)) 0 =
      quaternion_generate_key_raw id 0 ∧
    (∀ x : GenKeyExit, genKeyExitCode x = none) :=
  C2_generate_key_discards_normalize_failure id (fun _ => Except.error (-2)) 0 (-2) rfl

/-- C3: the result of hypercomplex_decrypt_data is independent of the
caller-supplied (non-null) key argument: the C body never reads the key
parameter after the null guard, keying the transform on the conjugate of
the key stored in the container header instead. -/
theorem C3_decrypt_ignores_caller_key (T : quaternion_t → List Nat → List Nat)
    (cipher : List Nat) (k1 k2 : quaternion_t) (pbuf : List Nat) (plainCap : Nat) :
    hypercomplex_decrypt_data T cipher k1 pbuf plainCap =
      hypercomplex_decrypt_data T cipher k2 pbuf plainCap := rfl

/-- C4: compute_checksum equals the left fold, from accumulator 0, of
acc to ((acc << 1) XOR byte) mod 2^32 over the bytes in order; the checksum
of the empty sequence is 0, and the digest is order-sensitive. -/
theorem C4_checksum_is_spec_fold (l : List Nat) (hb : ∀ b ∈ l, b < 256) :
    compute_checksum l = checksum_spec l ∧
    compute_checksum [] = 0 ∧
    compute_checksum [1, 2] ≠ compute_checksum [2, 1] := by
  refine ⟨?_, rfl, by decide⟩
  unfold compute_checksum checksum_spec
  exact compute_checksum_go_eq_foldl l hb 0

/-- C4 witness: the fold equality at a concrete byte list. -/
theorem C4_checksum_is_spec_fold_witness :
    compute_checksum [1, 2] = checksum_spec [1, 2] ∧
    compute_checksum [] = 0 ∧
    compute_checksum [1, 2] ≠ compute_checksum [2, 1] :=
  C4_checksum_is_spec_fold [1, 2] (by decide)

/-- C5: for a valid key, encoding a plaintext of length L into a capacity
strictly below header_size + padded(L) fails with BufferTooSmall, leaves
the output buffer untouched, and sets the capacity out-parameter to
exactly header_size + padded(L), where padded(L) is the least multiple of
16 that is at least L. -/
theorem C5_encrypt_buffer_too_small (T : quaternion_t → List Nat → List Nat)
    (pt : List Nat) (k : quaternion_t) (buf : List Nat) (cap : Nat)
    (hvalid : quaternion_is_valid k = true)
    (hcap : cap < header_size + paddedLen pt.length) :
    hypercomplex_encrypt_data T pt k buf cap =
      ⟨EncExit.bufferTooSmall, buf, header_size + paddedLen pt.length⟩ ∧
    pt.length ≤ paddedLen pt.length ∧
    16 ∣ paddedLen pt.length ∧
    (∀ m, 16 ∣ m → pt.length ≤ m → paddedLen pt.length ≤ m) := by
  refine ⟨?_, paddedLen_ge _, paddedLen_dvd _, fun m hd hl => paddedLen_min _ m hd hl⟩
  unfold hypercomplex_encrypt_data
  rw [hvalid]
  simp [hcap]

/-- C5 witness: the capacity failure at a concrete undersized call. -/
theorem C5_encrypt_buffer_too_small_witness :
    hypercomplex_encrypt_data (fun _ b => b) [1, 2, 3]
        ⟨1065353216, 0, 0, 0⟩ [9, 9] 10 =
      ⟨EncExit.bufferTooSmall, [9, 9], header_size + paddedLen 3⟩ ∧
    (3 : Nat) ≤ paddedLen 3 ∧
    16 ∣ paddedLen 3 ∧
    (∀ m, 16 ∣ m → 3 ≤ m → paddedLen 3 ≤ m) :=
  C5_encrypt_buffer_too_small (fun _ b => b) [1, 2, 3]
    ⟨1065353216, 0, 0, 0⟩ [9, 9] 10 (by decide) (by decide)

/-- C6: a successful encode of a plaintext of length L emits a container
of total length header_size + padded(L), where padded(L) is the least
multiple of 16 that is at least L (equal to L when 16 divides L, including
L = 0), and the region the Rotation Transform is applied to is the
plaintext followed by all-zero pad bytes. -/
theorem C6_encrypt_container_shape (T : quaternion_t → List Nat → List Nat)
    (pt : List Nat) (k : quaternion_t) (buf : List Nat)
    (hvalid : quaternion_is_valid k = true)
    (hbuf : buf.length = header_size + paddedLen pt.length)
    (hlenT : ∀ q b, (T q b).length = b.length) :
    (hypercomplex_encrypt_data T pt k buf (header_size + paddedLen pt.length)).exit
      = EncExit.ok ∧
    (hypercomplex_encrypt_data T pt k buf (header_size + paddedLen pt.length)).cipherLen
      = header_size + paddedLen pt.length ∧
    (hypercomplex_encrypt_data T pt k buf
        (header_size + paddedLen pt.length)).buf.length
      = header_size + paddedLen pt.length ∧
    (hypercomplex_encrypt_data T pt k buf
        (header_size + paddedLen pt.length)).buf.drop header_size
      = T k (pt ++ List.replicate (paddedLen pt.length - pt.length) 0) ∧
    16 ∣ paddedLen pt.length ∧
    pt.length ≤ paddedLen pt.length ∧
    (∀ m, 16 ∣ m → pt.length ≤ m → paddedLen pt.length ≤ m) ∧
    (16 ∣ pt.length → paddedLen pt.length = pt.length) := by
  have htail : buf.drop (header_size + paddedLen pt.length) = [] :=
    List.drop_eq_nil_of_le (le_of_eq hbuf)
  have hS2 : (byteSlice buf 4 8).length = 4 := by
    apply length_byteSlice
    · rw [hbuf]; unfold header_size; omega
    · omega
  have hS6 : (byteSlice buf 36 40).length = 4 := by
    apply length_byteSlice
    · rw [hbuf]; unfold header_size; omega
    · omega
  obtain ⟨f0, f8, f16, f20, f24, f28, f32, fdrop, flen⟩ :=
    container_facts (byteSlice buf 4 8) (byteSlice buf 36 40)
      (T k (pt ++ List.replicate (paddedLen pt.length - pt.length) 0)) []
      pt.length k.w k.x k.y k.z (compute_checksum pt) hS2 hS6
  simp only [List.append_nil, List.length_nil] at fdrop flen
  have henc := encrypt_ok_shape T pt k buf _ hvalid le_rfl
  rw [htail] at henc
  simp only [List.append_nil] at henc
  refine ⟨by simp only [henc], by simp only [henc], ?_, ?_, paddedLen_dvd _, paddedLen_ge _,
    fun m hd hl => paddedLen_min _ m hd hl, fun h => paddedLen_eq_of_dvd _ h⟩
  · simp only [henc, flen, hlenT, padded_list_length]
    unfold header_size
    omega
  · simp only [henc]
    unfold header_size
    exact fdrop

/-- C6 witness: the container shape at a concrete encode. -/
theorem C6_encrypt_container_shape_witness :
    (hypercomplex_encrypt_data (fun _ b => b) [7] ⟨1065353216, 0, 0, 0⟩
        (List.replicate 56 0) (header_size + paddedLen 1)).exit = EncExit.ok ∧
    (hypercomplex_encrypt_data (fun _ b => b) [7] ⟨1065353216, 0, 0, 0⟩
        (List.replicate 56 0) (header_size + paddedLen 1)).cipherLen
      = header_size + paddedLen 1 ∧
    (hypercomplex_encrypt_data (fun _ b => b) [7] ⟨1065353216, 0, 0, 0⟩
        (List.replicate 56 0) (header_size + paddedLen 1)).buf.length
      = header_size + paddedLen 1 ∧
    (hypercomplex_encrypt_data (fun _ b => b) [7] ⟨1065353216, 0, 0, 0⟩
        (List.replicate 56 0) (header_size + paddedLen 1)).buf.drop header_size
      = (fun _ b => b) (⟨1065353216, 0, 0, 0⟩ : quaternion_t)
          ([7] ++ List.replicate (paddedLen 1 - 1) 0) ∧
    16 ∣ paddedLen 1 ∧
    (1 : Nat) ≤ paddedLen 1 ∧
    (∀ m, 16 ∣ m → 1 ≤ m → paddedLen 1 ≤ m) ∧
    (16 ∣ (1 : Nat) → paddedLen 1 = 1) :=
  C6_encrypt_container_shape (fun _ b => b) [7] ⟨1065353216, 0, 0, 0⟩
    (List.replicate 56 0) (by decide) (by decide) (fun _ _ => rfl)

/-- C7: decoding a buffer shorter than the header, or whose magic field
differs from 0xDEADBEEF, fails with Malformed (the tooShort and badMagic
return sites).  The result is the same for every transform T and leaves
the output buffer and the length out-parameter untouched, so the failure
happens before any transform or checksum work and without any write. -/
theorem C7_decrypt_malformed (T : quaternion_t → List Nat → List Nat)
    (cipher : List Nat) (k : quaternion_t) (pbuf : List Nat) (plainCap : Nat) :
    (cipher.length < header_size →
      hypercomplex_decrypt_data T cipher k pbuf plainCap =
        ⟨DecExit.tooShort, pbuf, plainCap⟩) ∧
    (header_size ≤ cipher.length → read32 cipher 0 ≠ 3735928559 →
      hypercomplex_decrypt_data T cipher k pbuf plainCap =
        ⟨DecExit.badMagic, pbuf, plainCap⟩) := by
  constructor
  · intro h
    unfold hypercomplex_decrypt_data
    rw [if_pos h]
  · intro h1 h2
    unfold hypercomplex_decrypt_data parseHeader
    rw [if_neg (Nat.not_lt.mpr h1), if_pos h2]

/-- C7 witness: the two Malformed failures at concrete buffers. -/
theorem C7_decrypt_malformed_witness :
    (hypercomplex_decrypt_data (fun _ b => b) [1, 2, 3] ⟨0, 0, 0, 0⟩ [5] 9 =
      ⟨DecExit.tooShort, [5], 9⟩) ∧
    (hypercomplex_decrypt_data (fun _ b => b) (List.replicate 40 0) ⟨0, 0, 0, 0⟩ [5] 9 =
      ⟨DecExit.badMagic, [5], 9⟩) :=
  ⟨(C7_decrypt_malformed (fun _ b => b) [1, 2, 3] ⟨0, 0, 0, 0⟩ [5] 9).1 (by decide),
    (C7_decrypt_malformed (fun _ b => b) (List.replicate 40 0) ⟨0, 0, 0, 0⟩ [5] 9).2
      (by decide) (by decide)⟩

/-- C8: when the checksum recomputed over the recovered, truncated
plaintext disagrees with the stored checksum, decode fails through the
IntegrityMismatch return site but still sets the plaintext-length
out-parameter to the header's recorded original length, with the
recovered-but-unverified bytes left in the output buffer; this exit is
distinct from the success exit. -/
theorem C8_decrypt_integrity_mismatch (T : quaternion_t → List Nat → List Nat)
    (cipher : List Nat) (k : quaternion_t) (pbuf : List Nat) (plainCap : Nat)
    (h40 : header_size ≤ cipher.length)
    (hm : read32 cipher 0 = 3735928559)
    (hcap : read64 cipher 8 ≤ plainCap)
    (hck : compute_checksum ((writeBytes pbuf 0
        (T (quaternion_conjugate
            ⟨read32 cipher 16, read32 cipher 20, read32 cipher 24, read32 cipher 28⟩)
          (cipher.drop header_size))).take (read64 cipher 8)) ≠ read32 cipher 32) :
    hypercomplex_decrypt_data T cipher k pbuf plainCap =
      ⟨DecExit.checksumMismatch,
        writeBytes pbuf 0
          (T (quaternion_conjugate
              ⟨read32 cipher 16, read32 cipher 20, read32 cipher 24, read32 cipher 28⟩)
            (cipher.drop header_size)),
        read64 cipher 8⟩ ∧
    DecExit.checksumMismatch ≠ DecExit.ok := by
  refine ⟨?_, by decide⟩
  unfold hypercomplex_decrypt_data parseHeader
  rw [if_neg (Nat.not_lt.mpr h40), if_neg (by simp [hm]), if_neg (Nat.not_lt.mpr hcap),
    if_pos hck]

/-- C8 witness: the mismatch exit at a concrete tampered container. -/
theorem C8_decrypt_integrity_mismatch_witness :
    (hypercomplex_decrypt_data (fun _ b => b)
        (le32 3735928559 ++ [0, 0, 0, 0] ++ le64 1 ++ le32 1065353216 ++ le32 0 ++
          le32 0 ++ le32 0 ++ le32 999 ++ [0, 0, 0, 0] ++ List.replicate 16 65)
        ⟨0, 0, 0, 0⟩ (List.replicate 16 0) 1).exit = DecExit.checksumMismatch ∧
    (hypercomplex_decrypt_data (fun _ b => b)
        (le32 3735928559 ++ [0, 0, 0, 0] ++ le64 1 ++ le32 1065353216 ++ le32 0 ++
          le32 0 ++ le32 0 ++ le32 999 ++ [0, 0, 0, 0] ++ List.replicate 16 65)
        ⟨0, 0, 0, 0⟩ (List.replicate 16 0) 1).plainLen = 1 := by
  have h := C8_decrypt_integrity_mismatch (fun _ b => b)
    (le32 3735928559 ++ [0, 0, 0, 0] ++ le64 1 ++ le32 1065353216 ++ le32 0 ++
      le32 0 ++ le32 0 ++ le32 999 ++ [0, 0, 0, 0] ++ List.replicate 16 65)
    ⟨0, 0, 0, 0⟩ (List.replicate 16 0) 1 (by decide) (by decide) (by decide) (by decide)
  rw [h.1]
  exact ⟨rfl, by decide⟩

/-- C10: the four spec failure kinds InvalidKey, BufferTooSmall, Malformed
(tooShort or badMagic) and IntegrityMismatch are all reported through the
single return code HC_ERROR_INVALID_DATA = -3; every return site of the
two codec entry points delivers one of the four defined codes 0, -1, -2,
-3, so the four failure kinds are indistinguishable from the return value
alone; a too-small output capacity is signalled separately through the
cipher-length out-parameter, which is set to the exact required size. -/
theorem C10_error_code_collapse :
    HC_ERROR_INVALID_DATA = -3 ∧
    encExitCode EncExit.invalidKey = HC_ERROR_INVALID_DATA ∧
    encExitCode EncExit.bufferTooSmall = HC_ERROR_INVALID_DATA ∧
    decExitCode DecExit.tooShort = HC_ERROR_INVALID_DATA ∧
    decExitCode DecExit.badMagic = HC_ERROR_INVALID_DATA ∧
    decExitCode DecExit.plainTooSmall = HC_ERROR_INVALID_DATA ∧
    decExitCode DecExit.checksumMismatch = HC_ERROR_INVALID_DATA ∧
    (∀ e : EncExit, encExitCode e = HC_SUCCESS ∨ encExitCode e = HC_ERROR_NULL_PTR ∨
      encExitCode e = HC_ERROR_DIVIDE_ZERO ∨ encExitCode e = HC_ERROR_INVALID_DATA) ∧
    (∀ e : DecExit, decExitCode e = HC_SUCCESS ∨ decExitCode e = HC_ERROR_NULL_PTR ∨
      decExitCode e = HC_ERROR_DIVIDE_ZERO ∨ decExitCode e = HC_ERROR_INVALID_DATA) ∧
    (∀ (T : quaternion_t → List Nat → List Nat) (pt : List Nat) (k : quaternion_t)
      (buf : List Nat) (cap : Nat), quaternion_is_valid k = true →
      cap < header_size + paddedLen pt.length →
      (hypercomplex_encrypt_data T pt k buf cap).cipherLen =
        header_size + paddedLen pt.length) := by
  refine ⟨rfl, rfl, rfl, rfl, rfl, rfl, rfl, ?_, ?_, ?_⟩
  · intro e
    cases e <;> simp [encExitCode, HC_SUCCESS, HC_ERROR_NULL_PTR, HC_ERROR_DIVIDE_ZERO,
      HC_ERROR_INVALID_DATA]
  · intro e
    cases e <;> simp [decExitCode, HC_SUCCESS, HC_ERROR_NULL_PTR, HC_ERROR_DIVIDE_ZERO,
      HC_ERROR_INVALID_DATA]
  · intro T pt k buf cap hvalid hcap
    unfold hypercomplex_encrypt_data
    rw [hvalid]
    simp [hcap]

/-- C10 witness: the code collapse and the out-parameter signal at a
concrete undersized encode. -/
theorem C10_error_code_collapse_witness :
    encExitCode EncExit.invalidKey = HC_ERROR_INVALID_DATA ∧
    decExitCode DecExit.checksumMismatch = HC_ERROR_INVALID_DATA ∧
    (hypercomplex_encrypt_data (fun _ b => b) [1] ⟨1065353216, 0, 0, 0⟩ [] 0).cipherLen =
      header_size + paddedLen 1 :=
  ⟨C10_error_code_collapse.2.1, C10_error_code_collapse.2.2.2.2.2.2.1,
    C10_error_code_collapse.2.2.2.2.2.2.2.2.2 (fun _ b => b) [1] ⟨1065353216, 0, 0, 0⟩
      [] 0 (by decide) (by decide)⟩

/-- Complemented byte stays a byte. -/
theorem flip_val_lt (d : Nat) : 255 ^^^ (d % 256) < 256 := by
  have h1 : (255 : Nat) < 2 ^ 8 := by norm_num
  have h2 : d % 256 < 2 ^ 8 := by
    have := Nat.mod_lt d (y := 256) (by norm_num)
    omega
  have := Nat.xor_lt_two_pow h1 h2
  omega

/-- C9 counterexample: the claim says flipping any single byte of a
successfully encoded container makes Decode fail with IntegrityMismatch.
Flipping byte 4 — one of the struct-padding bytes of
hypercomplex_header_t, which no field read ever touches — leaves Decode
succeeding (HC_SUCCESS) with the original plaintext. -/
theorem C9_padding_flip_counterexample :
    (hypercomplex_encrypt_data (fun _ b => b) [7] ⟨1065353216, 0, 0, 0⟩
        (List.replicate 56 0) 56).exit = EncExit.ok ∧
    flipByte (hypercomplex_encrypt_data (fun _ b => b) [7] ⟨1065353216, 0, 0, 0⟩
        (List.replicate 56 0) 56).buf 4 ≠
      (hypercomplex_encrypt_data (fun _ b => b) [7] ⟨1065353216, 0, 0, 0⟩
        (List.replicate 56 0) 56).buf ∧
    (hypercomplex_decrypt_data (fun _ b => b)
        (flipByte (hypercomplex_encrypt_data (fun _ b => b) [7] ⟨1065353216, 0, 0, 0⟩
          (List.replicate 56 0) 56).buf 4)
        ⟨1065353216, 0, 0, 0⟩ (List.replicate 16 0) 1).exit = DecExit.ok ∧
    (hypercomplex_decrypt_data (fun _ b => b)
        (flipByte (hypercomplex_encrypt_data (fun _ b => b) [7] ⟨1065353216, 0, 0, 0⟩
          (List.replicate 56 0) 56).buf 4)
        ⟨1065353216, 0, 0, 0⟩ (List.replicate 16 0) 1).buf.take 1 = [7] := by
  decide

/-- C9 (amended): for a container produced by a successful Encode (valid
unit key, transform contract), flipping a single byte of the header's
struct padding (offsets 4..7 or 36..39) does not change the decode result
at all; flipping a single byte of the magic field (offsets 0..3) makes
Decode fail with Malformed (badMagic), not IntegrityMismatch; flipping a
single byte of the stored checksum (offsets 32..35) makes Decode fail with
IntegrityMismatch (checksumMismatch).  Flips in the length, key or payload
regions are not guaranteed to produce IntegrityMismatch. -/
theorem C9_byte_flip_amended (T : quaternion_t → List Nat → List Nat)
    (U : quaternion_t → Prop) (pt buf pbuf : List Nat) (k : quaternion_t)
    (plainCap i j p : Nat)
    (hlen : ∀ q b, (T q b).length = b.length)
    (hinv : ∀ q b, U q → 16 ∣ b.length → T (quaternion_conjugate q) (T q b) = b)
    (hU : U k)
    (hvalid : quaternion_is_valid k = true)
    (hbits : quatBits k)
    (hbuf : buf.length = header_size + paddedLen pt.length)
    (hL : pt.length < 18446744073709551616)
    (hcap : pt.length ≤ plainCap)
    (hi : i < 4) (hj : 32 ≤ j ∧ j < 36)
    (hp : (4 ≤ p ∧ p < 8) ∨ (36 ≤ p ∧ p < 40)) :
    hypercomplex_decrypt_data T
        (flipByte (hypercomplex_encrypt_data T pt k buf
          (header_size + paddedLen pt.length)).buf p) k pbuf plainCap =
      hypercomplex_decrypt_data T
        (hypercomplex_encrypt_data T pt k buf
          (header_size + paddedLen pt.length)).buf k pbuf plainCap ∧
    (hypercomplex_decrypt_data T
        (flipByte (hypercomplex_encrypt_data T pt k buf
          (header_size + paddedLen pt.length)).buf i) k pbuf plainCap).exit =
      DecExit.badMagic ∧
    (hypercomplex_decrypt_data T
        (flipByte (hypercomplex_encrypt_data T pt k buf
          (header_size + paddedLen pt.length)).buf j) k pbuf plainCap).exit =
      DecExit.checksumMismatch := by
  have htail : buf.drop (header_size + paddedLen pt.length) = [] :=
    List.drop_eq_nil_of_le (le_of_eq hbuf)
  have hS2 : (byteSlice buf 4 8).length = 4 := by
    apply length_byteSlice
    · rw [hbuf]; unfold header_size; omega
    · omega
  have hS6 : (byteSlice buf 36 40).length = 4 := by
    apply length_byteSlice
    · rw [hbuf]; unfold header_size; omega
    · omega
  have henc := encrypt_ok_shape T pt k buf _ hvalid le_rfl
  rw [htail] at henc
  simp only [List.append_nil] at henc
  obtain ⟨f0, f8, f16, f20, f24, f28, f32, fdrop, flen⟩ :=
    container_facts (byteSlice buf 4 8) (byteSlice buf 36 40)
      (T k (pt ++ List.replicate (paddedLen pt.length - pt.length) 0)) []
      pt.length k.w k.x k.y k.z (compute_checksum pt) hS2 hS6
  simp only [List.append_nil, List.length_nil] at f0 f8 f16 f20 f24 f28 f32 fdrop flen
  obtain ⟨hw, hx, hy, hz⟩ := hbits
  simp only [henc]
  set C := le32 3735928559 ++ byteSlice buf 4 8 ++ le64 pt.length ++ le32 k.w ++
    le32 k.x ++ le32 k.y ++ le32 k.z ++ le32 (compute_checksum pt) ++
    byteSlice buf 36 40 ++
    T k (pt ++ List.replicate (paddedLen pt.length - pt.length) 0) with hC
  have hclen : C.length = 40 + paddedLen pt.length := by
    rw [flen, hlen, padded_list_length]
    omega
  refine ⟨?_, ?_, ?_⟩
  · apply decrypt_congr
    · simp [flipByte, List.length_set]
    · simp only [flipByte]
      exact parseHeader_set_outside C p _ hp
    · simp only [flipByte]
      exact drop_set_of_lt C p 40 _ (by omega)
  · simp only [flipByte]
    have hne := read32_set_inside_ne C 0 i (255 ^^^ (byteD C i % 256)) hi
      (by rw [Nat.zero_add, hclen]; omega) (flip_val_lt _)
      (by rw [Nat.zero_add]; exact flip_byte_ne _)
    rw [Nat.zero_add] at hne
    rw [f0] at hne
    simp only [hypercomplex_decrypt_data, parseHeader, header_size]
    rw [if_neg (by rw [List.length_set, hclen]; omega), if_pos hne]
  · simp only [flipByte]
    have hv2 : 255 ^^^ (byteD C j % 256) < 256 := flip_val_lt _
    have r0 : read32 (C.set j (255 ^^^ (byteD C j % 256))) 0 = 3735928559 := by
      rw [read32_set_outside C j _ 0 (by omega), f0]
    have r8 : read64 (C.set j (255 ^^^ (byteD C j % 256))) 8 = pt.length := by
      rw [read64_set_outside C j _ 8 (by omega), f8, Nat.mod_eq_of_lt hL]
    have r16 : read32 (C.set j (255 ^^^ (byteD C j % 256))) 16 = k.w % 4294967296 := by
      rw [read32_set_outside C j _ 16 (by omega), f16]
    have r20 : read32 (C.set j (255 ^^^ (byteD C j % 256))) 20 = k.x % 4294967296 := by
      rw [read32_set_outside C j _ 20 (by omega), f20]
    have r24 : read32 (C.set j (255 ^^^ (byteD C j % 256))) 24 = k.y % 4294967296 := by
      rw [read32_set_outside C j _ 24 (by omega), f24]
    have r28 : read32 (C.set j (255 ^^^ (byteD C j % 256))) 28 = k.z % 4294967296 := by
      rw [read32_set_outside C j _ 28 (by omega), f28]
    have hck32 : read32 C 32 = compute_checksum pt := by
      rw [f32, Nat.mod_eq_of_lt (compute_checksum_lt pt)]
    have hj2 : j = 32 + (j - 32) := by omega
    have r32ne : read32 (C.set j (255 ^^^ (byteD C j % 256))) 32 ≠ compute_checksum pt := by
      have h := read32_set_inside_ne C 32 (j - 32) (255 ^^^ (byteD C j % 256))
        (by omega) (by rw [← hj2, hclen]; omega) hv2
        (by rw [← hj2]; exact flip_byte_ne _)
      rw [← hj2] at h
      rw [hck32] at h
      exact h
    have rdrop : (C.set j (255 ^^^ (byteD C j % 256))).drop 40 =
        T k (pt ++ List.replicate (paddedLen pt.length - pt.length) 0) := by
      rw [drop_set_of_lt C j 40 _ (by omega), fdrop]
    have hkey2 : (⟨k.w % 4294967296, k.x % 4294967296, k.y % 4294967296,
        k.z % 4294967296⟩ : quaternion_t) = k := by
      cases k
      simp only [quaternion_t.mk.injEq]
      exact ⟨Nat.mod_eq_of_lt hw, Nat.mod_eq_of_lt hx, Nat.mod_eq_of_lt hy,
        Nat.mod_eq_of_lt hz⟩
    have hrec : T (quaternion_conjugate k)
        (T k (pt ++ List.replicate (paddedLen pt.length - pt.length) 0)) =
        pt ++ List.replicate (paddedLen pt.length - pt.length) 0 := by
      apply hinv k _ hU
      rw [padded_list_length]
      exact paddedLen_dvd pt.length
    simp only [hypercomplex_decrypt_data, parseHeader, header_size]
    simp only [r0, r8, r16, r20, r24, r28, rdrop, hkey2]
    rw [if_neg (by rw [List.length_set, hclen]; omega)]
    rw [if_neg (by norm_num)]
    rw [if_neg (Nat.not_lt.mpr hcap)]
    have condproof : compute_checksum (((writeBytes pbuf 0 (T (quaternion_conjugate k)
        (T k (pt ++ List.replicate (paddedLen pt.length - pt.length) 0))))).take
        pt.length) ≠ read32 (C.set j (255 ^^^ (byteD C j % 256))) 32 := by
      rw [hrec, writeBytes_zero, padded_list_length, List.append_assoc,
        take_append_len pt _ pt.length rfl]
      exact Ne.symm r32ne
    rw [if_pos condproof]

/-- C9 witness: the amended statement at a concrete encode, with flips at
offset 4 (padding), offset 0 (magic) and offset 32 (stored checksum). -/
theorem C9_byte_flip_amended_witness :
    hypercomplex_decrypt_data (fun _ b => b)
        (flipByte (hypercomplex_encrypt_data (fun _ b => b) [7] ⟨1065353216, 0, 0, 0⟩
          (List.replicate 56 0) (header_size + paddedLen 1)).buf 4)
        ⟨1065353216, 0, 0, 0⟩ (List.replicate 16 0) 1 =
      hypercomplex_decrypt_data (fun _ b => b)
        (hypercomplex_encrypt_data (fun _ b => b) [7] ⟨1065353216, 0, 0, 0⟩
          (List.replicate 56 0) (header_size + paddedLen 1)).buf
        ⟨1065353216, 0, 0, 0⟩ (List.replicate 16 0) 1 ∧
    (hypercomplex_decrypt_data (fun _ b => b)
        (flipByte (hypercomplex_encrypt_data (fun _ b => b) [7] ⟨1065353216, 0, 0, 0⟩
          (List.replicate 56 0) (header_size + paddedLen 1)).buf 0)
        ⟨1065353216, 0, 0, 0⟩ (List.replicate 16 0) 1).exit = DecExit.badMagic ∧
    (hypercomplex_decrypt_data (fun _ b => b)
        (flipByte (hypercomplex_encrypt_data (fun _ b => b) [7] ⟨1065353216, 0, 0, 0⟩
          (List.replicate 56 0) (header_size + paddedLen 1)).buf 32)
        ⟨1065353216, 0, 0, 0⟩ (List.replicate 16 0) 1).exit = DecExit.checksumMismatch :=
  C9_byte_flip_amended (fun _ b => b)
    (fun q => q = ⟨1065353216, 0, 0, 0⟩) [7] (List.replicate 56 0)
    (List.replicate 16 0) ⟨1065353216, 0, 0, 0⟩ 1 0 32 4
    (fun _ _ => rfl) (fun _ _ _ _ => rfl) rfl (by decide)
    (by unfold quatBits; decide) (by decide) (by decide) (by decide)
    (by decide) (by decide) (by decide)
